import Mathlib

/-!
# UTColor: per-character colouring and escape-coded export

A shallow embedding of the core of `src/main.cpp`: the colour buffer and its
positional synchronisation with the edited text, the two-producer selection
state, the uniform and gradient colour operations, and the encoder that writes
`ESC R G B` markers in front of every run of equally coloured characters.

Modelling conventions.

* Bytes (`char`, `uint8_t`) are natural numbers; a conversion to `uint8_t`
  reduces modulo `256`.
* `float` values are exact rationals.  The conversion `(uint8_t)(f * 255.0f)`
  truncates toward zero.
* `int` selection indices are integers.
* An indexed access `colored_text[i]` is checked: the embedding returns `none`
  when the index is outside the buffer, so that a result `some _` also says
  that no access went out of bounds.
* A counted `for` loop whose bounds are not changed by its body is a left fold
  over the list of its index values.
-/

namespace UTColor

/-! ## Data model -/

/-- The record `struct ColoredChar { char ch; uint8_t r, g, b; }`. -/
structure ColoredChar where
  ch : Nat
  r : Nat
  g : Nat
  b : Nat
deriving DecidableEq

/-- A `float[3]` colour as used by the picker and the gradient end points. -/
structure Color3 where
  c0 : ℚ
  c1 : ℚ
  c2 : ℚ
deriving DecidableEq

/-- The enumeration `enum SelectionSource { SEL_NONE, SEL_INPUT, SEL_GRID }`. -/
inductive SelectionSource where
  | SEL_NONE
  | SEL_INPUT
  | SEL_GRID
deriving DecidableEq

open SelectionSource

/-- The record `struct SelectionState`, with its default member values. -/
structure SelectionState where
  sel_start : Int := 0
  sel_end : Int := 0
  source : SelectionSource := SEL_NONE
deriving DecidableEq

/-! ## Channel conversion -/

/-- The function `ut_color`: `uint8_t v = (uint8_t)(f * 255.0f); return v == 0 ? 1 : v;`.
The cast truncates toward zero and keeps the low eight bits. -/
def ut_color (f : ℚ) : Nat :=
  let v := (Int.tdiv (f * 255).num (f * 255).den % 256).toNat
  if v = 0 then 1 else v

/-! ## Selection producers -/

/-- The callback `InputTextCallback`, given the widget's `SelectionStart` and
`SelectionEnd`. -/
def InputTextCallback (state : SelectionState) (SelectionStart SelectionEnd : Int) :
    SelectionState :=
  let s := min SelectionStart SelectionEnd
  let e := max SelectionStart SelectionEnd
  if s ≠ e then
    { sel_start := s, sel_end := e, source := SEL_INPUT }
  else if state.source = SEL_INPUT then
    { sel_start := 0, sel_end := 0, source := SEL_NONE }
  else
    state

/-- The body of `if (ImGui::Button(label, ...))` in the character grid: a click on
the button of index `i`, with `io.KeyShift` as `keyShift`. -/
def gridClick (sel_state : SelectionState) (i : Int) (keyShift : Bool) : SelectionState :=
  if keyShift ∧ sel_state.source = SEL_GRID then
    let anchor := sel_state.sel_start
    { sel_start := min anchor i, sel_end := max anchor i + 1, source := SEL_GRID }
  else
    { sel_start := i, sel_end := i + 1, source := SEL_GRID }

/-- The test `sel_start != sel_end && sel_end <= (int)colored_text.size()`. -/
def has_selection (sel_state : SelectionState) (colored_text : List ColoredChar) : Bool :=
  decide (sel_state.sel_start ≠ sel_state.sel_end) &&
    decide (sel_state.sel_end ≤ (colored_text.length : Int))

/-! ## Buffer accesses -/

/-- The checked write `cc = colored_text[i]; cc.r = r; cc.g = g; cc.b = b`. -/
def setColorAt (colored_text : List ColoredChar) (i : Int) (r g b : Nat) :
    Option (List ColoredChar) :=
  if i < 0 then none
  else
    match colored_text[i.toNat]? with
    | none => none
    | some cc => some (colored_text.set i.toNat { cc with r := r, g := g, b := b })

/-! ## Edit synchronisation -/

/-- The block `if (text_changed) { ... }`: the new buffer built by `push_back` for
`i` from `0` to `new_text.size() - 1`. -/
def sync (colored_text : List ColoredChar) (new_text : List Nat) : Option (List ColoredChar) :=
  (List.range new_text.length).foldlM
    (fun new_colored i => do
      let c ← new_text[i]?
      if i < colored_text.length then
        let old ← colored_text[i]?
        if old.ch = c then
          pure (new_colored ++ [old])
        else
          pure (new_colored ++ [{ ch := c, r := 255, g := 255, b := 255 }])
      else
        pure (new_colored ++ [{ ch := c, r := 255, g := 255, b := 255 }]))
    []

/-! ## Colour operations -/

/-- The button `Apply Color to All`, shown only for a non-empty buffer. -/
def applyColorAll (colored_text : List ColoredChar) (current_color : Color3) :
    List ColoredChar :=
  if colored_text.isEmpty then colored_text
  else
    let r := ut_color current_color.c0
    let g := ut_color current_color.c1
    let b := ut_color current_color.c2
    colored_text.map (fun cc => { cc with r := r, g := g, b := b })

/-- The interpolation fraction `t = (count > 1) ? (float)i / (float)(count - 1) : 0.0f`. -/
def gradientT (count i : Int) : ℚ :=
  if count > 1 then (i : ℚ) / ((count - 1 : Int) : ℚ) else 0

/-- One channel of the gradient: `ut_color(start + (end - start) * t)`. -/
def gradientChannel (gstart gend t : ℚ) : Nat :=
  ut_color (gstart + (gend - gstart) * t)

/-- The body of both gradient loops: the write to `colored_text[base + i]`. -/
def gradientWrite (gradient_start gradient_end : Color3) (count base : Int)
    (colored_text : List ColoredChar) (i : Nat) : Option (List ColoredChar) :=
  let t := gradientT count i
  setColorAt colored_text (base + i)
    (gradientChannel gradient_start.c0 gradient_end.c0 t)
    (gradientChannel gradient_start.c1 gradient_end.c1 t)
    (gradientChannel gradient_start.c2 gradient_end.c2 t)

/-- The gradient button `Apply to Selection`. -/
def gradientSelection (colored_text : List ColoredChar) (sel_state : SelectionState)
    (gradient_start gradient_end : Color3) : Option (List ColoredChar) :=
  let has_sel := decide (sel_state.sel_start ≠ sel_state.sel_end) &&
    decide (sel_state.sel_end ≤ (colored_text.length : Int))
  if has_sel then
    let count := sel_state.sel_end - sel_state.sel_start
    (List.range count.toNat).foldlM
      (gradientWrite gradient_start gradient_end count sel_state.sel_start) colored_text
  else
    some colored_text

/-- The gradient button `Apply to All`. -/
def gradientAll (colored_text : List ColoredChar) (gradient_start gradient_end : Color3) :
    Option (List ColoredChar) :=
  let count : Int := colored_text.length
  if count > 0 then
    (List.range count.toNat).foldlM
      (gradientWrite gradient_start gradient_end count 0) colored_text
  else
    some colored_text

/-- The automatic application of the picker colour to the selection, run every
frame after the synchronisation. -/
def autoApply (colored_text : List ColoredChar) (sel_state : SelectionState)
    (prev_sel_start prev_sel_end : Int) (color_changed : Bool) (current_color : Color3) :
    Option (List ColoredChar) :=
  let selection_changed := decide (sel_state.sel_start ≠ prev_sel_start) ||
    decide (sel_state.sel_end ≠ prev_sel_end)
  if has_selection sel_state colored_text && (color_changed || selection_changed) then
    let r := ut_color current_color.c0
    let g := ut_color current_color.c1
    let b := ut_color current_color.c2
    (List.range (sel_state.sel_end - sel_state.sel_start).toNat).foldlM
      (fun buf (k : Nat) => setColorAt buf (sel_state.sel_start + (k : Int)) r g b) colored_text
  else
    some colored_text

/-! ## Encoder -/

/-- What the encoder appends: a colour marker (four bytes) or one character byte. -/
inductive Emit where
  | marker (r g b : Nat)
  | char (c : Nat)
deriving DecidableEq

/-- The bytes appended for one emission. -/
def Emit.bytes : Emit → List Nat
  | Emit.marker r g b => [0x1B, r, g, b]
  | Emit.char c => [c]

/-- The loop of the section `Encoded Output`, recording each append as an emission. -/
def encodeItems (colored_text : List ColoredChar) : Option (List Emit) :=
  (List.range colored_text.length).foldlM
    (fun encoded i => do
      let cc ← colored_text[i]?
      let need_code ←
        if i = 0 then pure true
        else do
          let prev ← colored_text[i - 1]?
          pure (decide (cc.r ≠ prev.r ∨ cc.g ≠ prev.g ∨ cc.b ≠ prev.b))
      if need_code then
        pure (encoded ++ [Emit.marker cc.r cc.g cc.b, Emit.char cc.ch])
      else
        pure (encoded ++ [Emit.char cc.ch]))
    []

/-- The string `encoded` as a list of bytes. -/
def encode (colored_text : List ColoredChar) : Option (List Nat) :=
  (encodeItems colored_text).map (fun items => (items.map Emit.bytes).flatten)

/-- The number of markers among the emissions. -/
def markerCount (items : List Emit) : Nat :=
  (items.filter (fun e => match e with
    | Emit.marker _ _ _ => true
    | Emit.char _ => false)).length


/-- The test `need_code` of the encoder, given the previous entry when there is one. -/
def needCode (prev : Option ColoredChar) (cc : ColoredChar) : Bool :=
  match prev with
  | none => true
  | some p => decide (cc.r ≠ p.r ∨ cc.g ≠ p.g ∨ cc.b ≠ p.b)

/-- The emissions of the encoder for a suffix of the buffer whose predecessor is
`prev`; the loop `encodeItems` computes `emitFrom none`. -/
def emitFrom (prev : Option ColoredChar) : List ColoredChar → List Emit
  | [] => []
  | cc :: rest =>
    (if needCode prev cc then [Emit.marker cc.r cc.g cc.b, Emit.char cc.ch]
      else [Emit.char cc.ch]) ++ emitFrom (some cc) rest

/-- The entry before index `k`, when there is one. -/
def prevAt (colored_text : List ColoredChar) (k : Nat) : Option ColoredChar :=
  if k = 0 then none else colored_text[k - 1]?

/-- The number of entries of the list whose colour differs from the colour of the
entry before them, `prev` being the entry before the first. -/
def colorChanges (prev : ColoredChar) : List ColoredChar → Nat
  | [] => 0
  | cc :: rest =>
    (if (prev.r, prev.g, prev.b) = (cc.r, cc.g, cc.b) then 0 else 1) + colorChanges cc rest

/-! ## Reference notions of the specification -/

/-- The colour of an entry as a triple. -/
def ColoredChar.color (cc : ColoredChar) : Nat × Nat × Nat := (cc.r, cc.g, cc.b)

/-- Every channel of the entry lies in `1..255`. -/
def ColoredChar.channelsOk (cc : ColoredChar) : Prop :=
  (1 ≤ cc.r ∧ cc.r ≤ 255) ∧ (1 ≤ cc.g ∧ cc.g ≤ 255) ∧ (1 ≤ cc.b ∧ cc.b ≤ 255)

/-- Reference decoder of the specification (the consumer of the byte stream, not
part of the program): scan left to right; a byte `0x1B` starts a four-byte marker
`ESC R G B` that sets the current colour; every other byte is a character that
carries the current colour.  A marker cut short by the end of the input ends the
decoding. -/
def specDecode : Nat × Nat × Nat → List Nat → List ColoredChar
  | _, [] => []
  | cur, x :: rest =>
    if x = 0x1B then
      match rest with
      | r :: g :: b :: rest' => specDecode (r, g, b) rest'
      | _ => []
    else
      { ch := x, r := cur.1, g := cur.2.1, b := cur.2.2 } :: specDecode cur rest

/-- The number of runs of the specification: the maximal blocks of consecutive
entries of one colour. -/
def runCount (colored_text : List ColoredChar) : Nat :=
  (colored_text.splitBy (fun x y => decide (x.color = y.color))).length

/-- The entry that the specification prescribes at index `i` of a synchronised
buffer whose new character there is `c`. -/
def specSyncEntry (old : List ColoredChar) (i : Nat) (c : Nat) : ColoredChar :=
  match old[i]? with
  | some o => if o.ch = c then { ch := c, r := o.r, g := o.g, b := o.b }
              else { ch := c, r := 255, g := 255, b := 255 }
  | none => { ch := c, r := 255, g := 255, b := 255 }

/-! ## The application state and its events -/

/-- The variables of `main` that the core reads and writes, with their initial
values. -/
structure AppState where
  colored_text : List ColoredChar := []
  sel_state : SelectionState := {}
  prev_sel_start : Int := 0
  prev_sel_end : Int := 0
  current_color : Color3 := { c0 := 1, c1 := 1, c2 := 1 }
  gradient_start : Color3 := { c0 := 1, c1 := 0, c2 := 0 }
  gradient_end : Color3 := { c0 := 0, c1 := 0, c2 := 1 }
deriving DecidableEq

/-- The state at the start of `main`. -/
def initState : AppState := {}

/-- The inputs that make one block of the frame loop run. -/
inductive Event where
  /-- The widget `ColorPicker3` stores a new picker colour. -/
  | pickColor (c : Color3)
  /-- The widgets `ColorEdit3` store new gradient end points. -/
  | setGradient (gstart gend : Color3)
  /-- The button `Apply Color to All`. -/
  | applyColorAllButton
  /-- The gradient button `Apply to Selection`. -/
  | gradientSelectionButton
  /-- The gradient button `Apply to All`. -/
  | gradientAllButton
  /-- The text widget calls `InputTextCallback`. -/
  | textSelection (SelectionStart SelectionEnd : Int)
  /-- The text widget reports a changed text. -/
  | textChanged (new_text : List Nat)
  /-- The automatic application and the update of `prev_sel_start`, `prev_sel_end`. -/
  | autoApplyTick (color_changed : Bool)
  /-- A click on grid button `i`. -/
  | gridButton (i : Nat) (keyShift : Bool)

/-- With `e` one block of the frame loop runs on state `s`; `none` when an access
leaves the buffer. -/
def step (s : AppState) : Event → Option AppState
  | Event.pickColor c => some { s with current_color := c }
  | Event.setGradient gstart gend => some { s with gradient_start := gstart, gradient_end := gend }
  | Event.applyColorAllButton =>
    some { s with colored_text := applyColorAll s.colored_text s.current_color }
  | Event.gradientSelectionButton =>
    (gradientSelection s.colored_text s.sel_state s.gradient_start s.gradient_end).map
      (fun buf => { s with colored_text := buf })
  | Event.gradientAllButton =>
    (gradientAll s.colored_text s.gradient_start s.gradient_end).map
      (fun buf => { s with colored_text := buf })
  | Event.textSelection a b =>
    some { s with sel_state := InputTextCallback s.sel_state a b }
  | Event.textChanged new_text =>
    (sync s.colored_text new_text).map (fun buf => { s with colored_text := buf })
  | Event.autoApplyTick color_changed =>
    (autoApply s.colored_text s.sel_state s.prev_sel_start s.prev_sel_end color_changed
      s.current_color).map
      (fun buf => { s with colored_text := buf,
                           prev_sel_start := s.sel_state.sel_start,
                           prev_sel_end := s.sel_state.sel_end })
  | Event.gridButton i keyShift =>
    some { s with sel_state := gridClick s.sel_state i keyShift }

/-- The states reached from `initState` by events that satisfy `V`. -/
inductive ReachableBy (V : AppState → Event → Prop) : AppState → Prop where
  | init : ReachableBy V initState
  | next {s s' : AppState} (e : Event) :
      ReachableBy V s → V s e → step s e = some s' → ReachableBy V s'

/-- All three channels lie in `[0,1]`. -/
def Color3.inUnit (c : Color3) : Prop :=
  (0 ≤ c.c0 ∧ c.c0 ≤ 1) ∧ (0 ≤ c.c1 ∧ c.c1 ≤ 1) ∧ (0 ≤ c.c2 ∧ c.c2 ≤ 1)

/-- What the user interface guarantees of an event: colour channels in `[0,1]`,
non-negative text positions, and a grid button that exists. -/
def ValidEvent (s : AppState) : Event → Prop
  | Event.pickColor c => c.inUnit
  | Event.setGradient gstart gend => gstart.inUnit ∧ gend.inUnit
  | Event.textSelection a b => 0 ≤ a ∧ 0 ≤ b
  | Event.gridButton i _ => i < s.colored_text.length
  | _ => True

/-- The events of the selection model: a text edit, a text-widget report inside the
current text, a grid click on an existing index. -/
def SelEvent (s : AppState) : Event → Prop
  | Event.textChanged _ => True
  | Event.textSelection a b =>
    (0 ≤ a ∧ a ≤ (s.colored_text.length : Int)) ∧ (0 ≤ b ∧ b ≤ (s.colored_text.length : Int))
  | Event.gridButton i _ => i < s.colored_text.length
  | _ => False

/-- A selection event that does not shorten the text. -/
def GrowingSelEvent (s : AppState) (e : Event) : Prop :=
  SelEvent s e ∧
    match e with
    | Event.textChanged new_text => s.colored_text.length ≤ new_text.length
    | _ => True

/-- The state of the scenario: the text `abc` with the gradient from red to blue. -/
def scenarioState : AppState :=
  { colored_text := [⟨0x61, 255, 1, 1⟩, ⟨0x62, 127, 1, 127⟩, ⟨0x63, 1, 1, 255⟩] }

/-- The text `abc`, all white, with no selection. -/
def abcState : AppState :=
  { colored_text := [⟨0x61, 255, 255, 255⟩, ⟨0x62, 255, 255, 255⟩, ⟨0x63, 255, 255, 255⟩] }

/-- The text `abc` with its third character selected in the grid. -/
def gridState : AppState :=
  { colored_text := [⟨0x61, 255, 255, 255⟩, ⟨0x62, 255, 255, 255⟩, ⟨0x63, 255, 255, 255⟩],
    sel_state := { sel_start := 2, sel_end := 3, source := SEL_GRID } }

/-- The state `gridState` after the text was shortened to `a`. -/
def staleState : AppState :=
  { colored_text := [⟨0x61, 255, 255, 255⟩],
    sel_state := { sel_start := 2, sel_end := 3, source := SEL_GRID } }


/-! ## Loop invariants -/

/-- Invariant rule for a counted loop whose body may fail: when the invariant holds
at the start and every iteration succeeds and re-establishes it, the loop succeeds
and the invariant holds at the end. -/
theorem foldlM_range_inv {α : Type} (f : α → Nat → Option α) (P : Nat → α → Prop) :
    ∀ (n : Nat) (init : α), P 0 init →
      (∀ k, k < n → ∀ a, P k a → ∃ a', f a k = some a' ∧ P (k + 1) a') →
      ∃ r, (List.range n).foldlM f init = some r ∧ P n r := by
  intro n
  induction n with
  | zero =>
    intro init h0 _
    exact ⟨init, by simp, h0⟩
  | succ n ih =>
    intro init h0 hstep
    obtain ⟨r, hr, hP⟩ := ih init h0 (fun k hk a ha => hstep k (Nat.lt_succ_of_lt hk) a ha)
    obtain ⟨r', hr', hP'⟩ := hstep n (Nat.lt_succ_self n) r hP
    refine ⟨r', ?_, hP'⟩
    rw [List.range_succ, List.foldlM_append, hr]
    simp [hr']

/-! ## Channel conversion -/

theorem ut_color_of_nonneg (f : ℚ) (h0 : 0 ≤ f) :
    ut_color f = if (⌊f * 255⌋ % 256).toNat = 0 then 1 else (⌊f * 255⌋ % 256).toNat := by
  have hq : 0 ≤ f * 255 := by positivity
  have hnum : 0 ≤ (f * 255).num := Rat.num_nonneg.mpr hq
  have hden : (0 : Int) ≤ ((f * 255).den : Int) := Int.natCast_nonneg _
  unfold ut_color
  rw [Int.tdiv_eq_ediv hnum hden, ← Rat.floor_def]

theorem ut_color_pos (f : ℚ) : 1 ≤ ut_color f := by
  unfold ut_color
  simp only
  split <;> omega

theorem ut_color_le (f : ℚ) : ut_color f ≤ 255 := by
  unfold ut_color
  simp only
  split <;> omega

/-- C9. Zero clamp of the channel conversion: `ut_color 0 = 1`, and for every
rational `f` in `[0,1]` the result is `floor (f * 255)` when that is not zero and
`1` otherwise, so it lies in `1..255`. -/
theorem ut_color_zero_clamp :
    ut_color 0 = 1 ∧
    ∀ f : ℚ, 0 ≤ f → f ≤ 1 →
      ut_color f = (if ⌊f * 255⌋ = 0 then 1 else ⌊f * 255⌋.toNat) ∧
      1 ≤ ut_color f ∧ ut_color f ≤ 255 := by
  refine ⟨by decide!, ?_⟩
  intro f h0 h1
  refine ⟨?_, ut_color_pos f, ut_color_le f⟩
  have hlo : (0 : Int) ≤ ⌊f * 255⌋ := Int.floor_nonneg.mpr (by positivity)
  have hhi : ⌊f * 255⌋ ≤ 255 := by
    have : f * 255 ≤ ((255 : Int) : ℚ) := by push_cast; linarith
    exact Int.le_of_lt_add_one (Int.floor_lt.mpr (by push_cast at this ⊢; linarith))
  rw [ut_color_of_nonneg f h0]
  have hmod : ⌊f * 255⌋ % 256 = ⌊f * 255⌋ := Int.emod_eq_of_lt hlo (by omega)
  rw [hmod]
  by_cases hz : ⌊f * 255⌋ = 0
  · simp [hz]
  · have : ⌊f * 255⌋.toNat ≠ 0 := by omega
    simp [hz, this]

/-- Witness for C9 at `f = 1/2`: the conversion gives `127 = floor (127.5)`. -/
theorem ut_color_zero_clamp_witness :
    ut_color (1 / 2) = (if ⌊(1 / 2 : ℚ) * 255⌋ = 0 then 1 else ⌊(1 / 2 : ℚ) * 255⌋.toNat) ∧
      1 ≤ ut_color (1 / 2) ∧ ut_color (1 / 2) ≤ 255 :=
  ut_color_zero_clamp.2 (1 / 2) (by norm_num) (by norm_num)


/-! ## Edit synchronisation -/

theorem sync_spec (old : List ColoredChar) (new_text : List Nat) :
    ∃ out : List ColoredChar, sync old new_text = some out ∧ out.length = new_text.length ∧
      ∀ i : Nat, out[i]? = (new_text[i]?).map (specSyncEntry old i) := by
  have key := foldlM_range_inv
    (fun new_colored i => do
      let c ← new_text[i]?
      if i < old.length then
        let o ← old[i]?
        if o.ch = c then
          pure (new_colored ++ [o])
        else
          pure (new_colored ++ [{ ch := c, r := 255, g := 255, b := 255 }])
      else
        pure (new_colored ++ [({ ch := c, r := 255, g := 255, b := 255 } : ColoredChar)]))
    (fun k acc => acc.length = k ∧
      ∀ i, i < k → acc[i]? = (new_text[i]?).map (specSyncEntry old i))
    new_text.length [] ⟨rfl, fun i hi => absurd hi (Nat.not_lt_zero i)⟩ ?_
  · obtain ⟨out, hout, hlen, hpt⟩ := key
    refine ⟨out, hout, hlen, fun i => ?_⟩
    by_cases hi : i < new_text.length
    · exact hpt i hi
    · have h1 : new_text[i]? = none := List.getElem?_eq_none (by omega)
      have h2 : out[i]? = none := List.getElem?_eq_none (by omega)
      simp [h1, h2]
  · intro k hk acc ⟨hlen, hpt⟩
    have hc : new_text[k]? = some new_text[k] := List.getElem?_eq_getElem hk
    have hext : ∀ x : ColoredChar, x = specSyncEntry old k new_text[k] →
        (acc ++ [x]).length = k + 1 ∧
        ∀ i, i < k + 1 → (acc ++ [x])[i]? = (new_text[i]?).map (specSyncEntry old i) := by
      intro x hx
      refine ⟨by simp [hlen], fun i hi => ?_⟩
      by_cases hik : i < k
      · rw [List.getElem?_append_left (by omega)]
        exact hpt i hik
      · have : i = k := by omega
        subst this
        rw [List.getElem?_append_right (by omega)]
        simp [hlen, hc, hx]
    by_cases hko : k < old.length
    · have ho : old[k]? = some old[k] := List.getElem?_eq_getElem hko
      by_cases hch : old[k].ch = new_text[k]
      · refine ⟨acc ++ [old[k]], by simp [hc, hko, ho, hch], hext _ ?_⟩
        simp [specSyncEntry, ho, hch]
        rw [← hch]
      · refine ⟨acc ++ [{ ch := new_text[k], r := 255, g := 255, b := 255 }],
          by simp [hc, hko, ho, hch], hext _ ?_⟩
        simp [specSyncEntry, ho, hch]
    · have ho : old[k]? = none := List.getElem?_eq_none (by omega)
      refine ⟨acc ++ [{ ch := new_text[k], r := 255, g := 255, b := 255 }],
        by simp [hc, hko], hext _ ?_⟩
      simp [specSyncEntry, ho]

/-- C2. Synchronisation equals its positional reference: `sync old new_text`
succeeds, its result has the length of `new_text`, and entry `i` exists exactly when
`new_text[i]` does; it then has that character, with the colour of `old[i]` when
`old[i]` exists and has the same character, and the default colour `(255,255,255)`
otherwise. -/
theorem sync_positional (old : List ColoredChar) (new_text : List Nat) :
    ∃ out : List ColoredChar, sync old new_text = some out ∧ out.length = new_text.length ∧
      ∀ i : Nat, out[i]? = (new_text[i]?).map (fun c : Nat =>
        match old[i]? with
        | some o =>
          if o.ch = c then ({ ch := c, r := o.r, g := o.g, b := o.b } : ColoredChar)
          else { ch := c, r := 255, g := 255, b := 255 }
        | none => { ch := c, r := 255, g := 255, b := 255 }) := by
  obtain ⟨out, h1, h2, h3⟩ := sync_spec old new_text
  exact ⟨out, h1, h2, fun i => by simpa [specSyncEntry] using h3 i⟩

/-! ## Selection ownership -/

/-- C6. Selection ownership: an empty report of the text widget
(`SelectionStart = SelectionEnd`) leaves a selection owned by the grid unchanged;
every non-empty report (`SelectionStart ≠ SelectionEnd`, in either order) sets the
range to `[min, max)` of the two positions and the source to the text widget,
whoever owned the selection, so that a report `[s,e)` with `s < e` sets the range to
`[s,e)`; a click on grid index `2` gives `([2,3), Grid)`, which an empty report keeps
and the report `[0,2)` replaces by `([0,2), TextWidget)`. -/
theorem selection_ownership :
    (∀ (st : SelectionState) (a : Int), st.source = SEL_GRID → InputTextCallback st a a = st) ∧
    (∀ (st : SelectionState) (a b : Int), a ≠ b →
      InputTextCallback st a b
        = { sel_start := min a b, sel_end := max a b, source := SEL_INPUT }) ∧
    (∀ (st : SelectionState) (s e : Int), s < e →
      InputTextCallback st s e = { sel_start := s, sel_end := e, source := SEL_INPUT } ∧
      InputTextCallback st e s = { sel_start := s, sel_end := e, source := SEL_INPUT }) ∧
    (∀ (st : SelectionState),
      gridClick st 2 false = { sel_start := 2, sel_end := 3, source := SEL_GRID }) ∧
    (∀ a : Int, InputTextCallback { sel_start := 2, sel_end := 3, source := SEL_GRID } a a
      = { sel_start := 2, sel_end := 3, source := SEL_GRID }) ∧
    InputTextCallback { sel_start := 2, sel_end := 3, source := SEL_GRID } 0 2
      = { sel_start := 0, sel_end := 2, source := SEL_INPUT } := by
  have hne : ∀ (st : SelectionState) (a b : Int), a ≠ b →
      InputTextCallback st a b
        = { sel_start := min a b, sel_end := max a b, source := SEL_INPUT } := by
    intro st a b h
    have hmm : min a b ≠ max a b := by
      intro heq
      have h1 : min a b < max a b := min_lt_max.mpr h
      exact absurd heq (ne_of_lt h1)
    simp [InputTextCallback, hmm]
  refine ⟨?_, hne, ?_, ?_, ?_, ?_⟩
  · intro st a h
    simp [InputTextCallback, h]
  · intro st s e h
    have h1 : min s e = s := min_eq_left (le_of_lt h)
    have h2 : max s e = e := max_eq_right (le_of_lt h)
    have h3 : min e s = s := min_eq_right (le_of_lt h)
    have h4 : max e s = e := max_eq_left (le_of_lt h)
    constructor
    · rw [hne st s e (ne_of_lt h), h1, h2]
    · rw [hne st e s (ne_of_gt h), h3, h4]
  · intro st
    simp [gridClick]
  · intro a
    simp [InputTextCallback]
  · decide

/-- Witness for C6: on `([2,3), Grid)`, the empty report `(5,5)`, the reversed report
`(3,1)`, and the report `[0,2)` with its reverse. -/
theorem selection_ownership_witness :
    InputTextCallback { sel_start := 2, sel_end := 3, source := SEL_GRID } 5 5
      = { sel_start := 2, sel_end := 3, source := SEL_GRID } ∧
    InputTextCallback { sel_start := 2, sel_end := 3, source := SEL_GRID } 3 1
      = { sel_start := min 3 1, sel_end := max 3 1, source := SEL_INPUT } ∧
    (InputTextCallback { sel_start := 2, sel_end := 3, source := SEL_GRID } 0 2
      = { sel_start := 0, sel_end := 2, source := SEL_INPUT } ∧
     InputTextCallback { sel_start := 2, sel_end := 3, source := SEL_GRID } 2 0
      = { sel_start := 0, sel_end := 2, source := SEL_INPUT }) :=
  ⟨selection_ownership.1 { sel_start := 2, sel_end := 3, source := SEL_GRID } 5 rfl,
   selection_ownership.2.1 { sel_start := 2, sel_end := 3, source := SEL_GRID } 3 1 (by decide),
   selection_ownership.2.2.1 { sel_start := 2, sel_end := 3, source := SEL_GRID } 0 2
     (by decide)⟩

/-! ## Encoder -/

theorem encodeItems_eq (buf : List ColoredChar) : encodeItems buf = some (emitFrom none buf) := by
  have key : ∃ r, encodeItems buf = some r ∧
      r ++ emitFrom (prevAt buf buf.length) (buf.drop buf.length) = emitFrom none buf := by
    unfold encodeItems
    refine foldlM_range_inv _
      (fun k acc => acc ++ emitFrom (prevAt buf k) (buf.drop k) = emitFrom none buf)
      buf.length [] (by simp [prevAt]) ?_
    intro k hk acc hP
    have hc : buf[k]? = some buf[k] := List.getElem?_eq_getElem hk
    have hdrop : buf.drop k = buf[k] :: buf.drop (k + 1) := List.drop_eq_getElem_cons hk
    have hnext : prevAt buf (k + 1) = some buf[k] := by simp [prevAt, hc]
    dsimp only at hP ⊢
    rw [hdrop, emitFrom] at hP
    rw [hnext, ← hP]
    by_cases hk0 : k = 0
    · subst hk0
      simp [hc, prevAt, needCode]
    · have hp : buf[k - 1]? = some buf[k - 1] := List.getElem?_eq_getElem (by omega)
      by_cases hd : buf[k].r ≠ buf[k - 1].r ∨ buf[k].g ≠ buf[k - 1].g ∨ buf[k].b ≠ buf[k - 1].b
      · simp [hc, hp, hk0, prevAt, needCode, hd]
      · simp [hc, hp, hk0, prevAt, needCode, hd]
  obtain ⟨out, hout, hP⟩ := key
  simp [emitFrom] at hP
  rw [hout, hP]

theorem needCode_some (p cc : ColoredChar) :
    needCode (some p) cc = !decide ((p.r, p.g, p.b) = (cc.r, cc.g, cc.b)) := by
  unfold needCode
  by_cases h : (p.r, p.g, p.b) = (cc.r, cc.g, cc.b)
  · have h' := h
    simp only [Prod.mk.injEq] at h'
    obtain ⟨h1, h2, h3⟩ := h'
    simp [h1, h2, h3]
  · have h' := h
    simp only [Prod.mk.injEq, not_and] at h'
    have : cc.r ≠ p.r ∨ cc.g ≠ p.g ∨ cc.b ≠ p.b := by
      by_contra hc
      push_neg at hc
      exact h (by simp [hc.1, hc.2.1, hc.2.2])
    simp [h, this]

theorem markerCount_append (xs ys : List Emit) :
    markerCount (xs ++ ys) = markerCount xs + markerCount ys := by
  simp [markerCount]

theorem markerCount_emitFrom_some (p : ColoredChar) (l : List ColoredChar) :
    markerCount (emitFrom (some p) l) = colorChanges p l := by
  induction l generalizing p with
  | nil => simp [emitFrom, markerCount, colorChanges]
  | cons c rest ih =>
    rw [emitFrom, markerCount_append, ih c, colorChanges, needCode_some]
    by_cases h : (p.r, p.g, p.b) = (c.r, c.g, c.b)
    · simp [h, markerCount]
    · simp [h, markerCount]

theorem markerCount_emitFrom_none (c : ColoredChar) (l : List ColoredChar) :
    markerCount (emitFrom none (c :: l)) = 1 + colorChanges c l := by
  rw [emitFrom, markerCount_append, markerCount_emitFrom_some]
  simp [needCode, markerCount]

theorem splitBy_loop_length (l : List ColoredChar) :
    ∀ (a : ColoredChar) (g : List ColoredChar) (gs : List (List ColoredChar)),
      (List.splitBy.loop (fun x y => decide (x.color = y.color)) l a g gs).length
        = gs.length + 1 + colorChanges a l := by
  induction l with
  | nil =>
    intro a g gs
    simp [List.splitBy.loop, colorChanges]
  | cons c rest ih =>
    intro a g gs
    rw [List.splitBy.loop, colorChanges]
    by_cases h : a.color = c.color
    · have h' : (a.r, a.g, a.b) = (c.r, c.g, c.b) := h
      simp only [h, decide_True]
      rw [ih]
      simp [h']
    · have h' : ¬ (a.r, a.g, a.b) = (c.r, c.g, c.b) := h
      simp only [h, decide_False]
      rw [ih]
      simp [h']
      omega

theorem runCount_cons (c : ColoredChar) (l : List ColoredChar) :
    runCount (c :: l) = 1 + colorChanges c l := by
  unfold runCount
  rw [List.splitBy, splitBy_loop_length]
  simp

theorem bytes_length_emitFrom (prev : Option ColoredChar) (l : List ColoredChar) :
    (((emitFrom prev l).map Emit.bytes).flatten).length
      = l.length + 4 * markerCount (emitFrom prev l) := by
  induction l generalizing prev with
  | nil => simp [emitFrom, markerCount]
  | cons c rest ih =>
    rw [emitFrom, markerCount_append, List.map_append, List.flatten_append, List.length_append,
      ih (some c)]
    by_cases h : needCode prev c = true
    · simp [h, markerCount, Emit.bytes]
      omega
    · simp [h, markerCount, Emit.bytes]
      omega

/-- C4. Encoding minimality: the encoder succeeds on every buffer; the number of
markers it emits equals the number of maximal runs of equally coloured entries (none
for the empty buffer); its first emissions are the marker and the character of the
first entry; and the output has `len + 4 * runs` bytes. -/
theorem encode_marker_count (buf : List ColoredChar) :
    ∃ items : List Emit, encodeItems buf = some items ∧
      markerCount items = runCount buf ∧
      (match buf with
        | [] => items = []
        | c :: _ => ∃ tail, items = Emit.marker c.r c.g c.b :: Emit.char c.ch :: tail) ∧
      ∃ bytes : List Nat, encode buf = some bytes ∧
        bytes.length = buf.length + 4 * runCount buf := by
  have hcount : markerCount (emitFrom none buf) = runCount buf := by
    cases buf with
    | nil => simp [emitFrom, markerCount, runCount, List.splitBy]
    | cons c l => rw [markerCount_emitFrom_none, runCount_cons]
  refine ⟨emitFrom none buf, encodeItems_eq buf, hcount, ?_, ?_⟩
  · cases buf with
    | nil => simp [emitFrom]
    | cons c l => exact ⟨emitFrom (some c) l, by simp [emitFrom, needCode]⟩
  · refine ⟨((emitFrom none buf).map Emit.bytes).flatten, by simp [encode, encodeItems_eq], ?_⟩
    rw [bytes_length_emitFrom, hcount]

theorem specDecode_marker (cur : Nat × Nat × Nat) (r g b : Nat) (rest : List Nat) :
    specDecode cur (0x1B :: r :: g :: b :: rest) = specDecode (r, g, b) rest := by
  rw [specDecode.eq_def]
  simp

theorem specDecode_char (cur : Nat × Nat × Nat) (x : Nat) (rest : List Nat) (h : x ≠ 0x1B) :
    specDecode cur (x :: rest)
      = { ch := x, r := cur.1, g := cur.2.1, b := cur.2.2 } :: specDecode cur rest := by
  rw [specDecode.eq_def]
  simp [h]

theorem specDecode_emitFrom (l : List ColoredChar) :
    ∀ (prev : Option ColoredChar) (cur : Nat × Nat × Nat),
      (∀ c ∈ l, c.ch ≠ 0x1B) → (∀ p, prev = some p → cur = (p.r, p.g, p.b)) →
      specDecode cur (((emitFrom prev l).map Emit.bytes).flatten) = l := by
  induction l with
  | nil =>
    intro prev cur _ _
    simp [emitFrom, specDecode]
  | cons c rest ih =>
    intro prev cur hesc hcur
    have hc : c.ch ≠ 0x1B := hesc c (List.mem_cons_self _ _)
    have hrest : ∀ x ∈ rest, x.ch ≠ 0x1B := fun x hx => hesc x (List.mem_cons_of_mem _ hx)
    have ih' := ih (some c) (c.r, c.g, c.b) hrest (fun p hp => by cases hp; rfl)
    rw [emitFrom, List.map_append, List.flatten_append]
    by_cases hn : needCode prev c = true
    · simp only [hn, if_true, List.map_cons, List.map_nil, List.flatten_cons, List.flatten_nil,
        Emit.bytes, List.cons_append, List.nil_append, List.append_nil]
      rw [specDecode_marker, specDecode_char _ _ _ hc, ih']
    · cases prev with
      | none => simp [needCode] at hn
      | some p =>
        have hp := hcur p rfl
        have hpc : (p.r, p.g, p.b) = (c.r, c.g, c.b) := by
          by_contra hne
          exact hn (by simp [needCode_some, hne])
        have hcc : cur = (c.r, c.g, c.b) := hp.trans hpc
        have hn' : needCode (some p) c = false := by simp [needCode_some, hpc]
        simp only [hn', Bool.false_eq_true, if_false, List.map_cons, List.map_nil,
          List.flatten_cons, List.flatten_nil, Emit.bytes, List.cons_append, List.nil_append,
          List.append_nil]
        rw [specDecode_char _ _ _ hc, hcc, ih']

/-- C1 (as amended). Round trip of the encoder: for every buffer none of whose
characters is the byte `0x1B`, the encoder succeeds and the reference decoder,
started with any colour, gives back the buffer. -/
theorem encode_roundtrip (buf : List ColoredChar) (hesc : ∀ c ∈ buf, c.ch ≠ 0x1B)
    (cur : Nat × Nat × Nat) :
    ∃ bytes : List Nat, encode buf = some bytes ∧ specDecode cur bytes = buf :=
  ⟨((emitFrom none buf).map Emit.bytes).flatten, by simp [encode, encodeItems_eq],
    specDecode_emitFrom buf none cur hesc (fun p hp => by cases hp)⟩

/-- Witness for C1 (as amended) on the two-run buffer `ab` / `c`. -/
theorem encode_roundtrip_witness :
    ∃ bytes : List Nat,
      encode [⟨97, 255, 1, 1⟩, ⟨98, 255, 1, 1⟩, ⟨99, 1, 1, 255⟩] = some bytes ∧
      specDecode (255, 255, 255) bytes
        = [⟨97, 255, 1, 1⟩, ⟨98, 255, 1, 1⟩, ⟨99, 1, 1, 255⟩] :=
  encode_roundtrip [⟨97, 255, 1, 1⟩, ⟨98, 255, 1, 1⟩, ⟨99, 1, 1, 255⟩] (by decide) (255, 255, 255)

/-- C1 as stated fails: the buffer `ESC a b c`, all white, is encoded as
`1B FF FF FF 1B 61 62 63`; the decoder reads the character `ESC` as the start of
a marker with colour `(61,62,63)` and returns no character at all. -/
theorem esc_char_breaks_roundtrip :
    encode [⟨0x1B, 255, 255, 255⟩, ⟨0x61, 255, 255, 255⟩, ⟨0x62, 255, 255, 255⟩,
        ⟨0x63, 255, 255, 255⟩]
      = some [0x1B, 0xFF, 0xFF, 0xFF, 0x1B, 0x61, 0x62, 0x63] ∧
    specDecode (255, 255, 255) [0x1B, 0xFF, 0xFF, 0xFF, 0x1B, 0x61, 0x62, 0x63] = [] ∧
    specDecode (255, 255, 255) [0x1B, 0xFF, 0xFF, 0xFF, 0x1B, 0x61, 0x62, 0x63]
      ≠ [⟨0x1B, 255, 255, 255⟩, ⟨0x61, 255, 255, 255⟩, ⟨0x62, 255, 255, 255⟩,
        ⟨0x63, 255, 255, 255⟩] := by
  refine ⟨by decide, by decide, by decide⟩

/-! ## Checked writes and the selection-scoped operations -/

theorem setColorAt_nat (buf : List ColoredChar) (n : Nat) (h : n < buf.length) (r g b : Nat) :
    setColorAt buf (n : Int) r g b
      = some (buf.set n { ch := buf[n].ch, r := r, g := g, b := b }) := by
  have hc : buf[n]? = some buf[n] := List.getElem?_eq_getElem h
  simp [setColorAt, hc]

theorem setColorAt_isSome_iff (buf : List ColoredChar) (i : Int) (r g b : Nat) :
    (setColorAt buf i r g b).isSome ↔ 0 ≤ i ∧ i < (buf.length : Int) := by
  by_cases h0 : i < 0
  · simp [setColorAt, h0]
  · obtain ⟨n, rfl⟩ := Int.eq_ofNat_of_zero_le (not_lt.mp h0)
    by_cases hn : n < buf.length
    · rw [setColorAt_nat buf n hn]
      simp [hn]
    · have hc : buf[n]? = none := List.getElem?_eq_none (by omega)
      simp [setColorAt, hc]
      omega

/-- A loop of checked colour writes at `base + k` for `k < n` succeeds and keeps the
length of the buffer when all these indices lie in the buffer. -/
theorem writeLoop_total (buf : List ColoredChar) (base : Nat) (n : Nat)
    (hfit : ∀ k, k < n → base + k < buf.length) (col : Nat → Nat × Nat × Nat) :
    ∃ out, (List.range n).foldlM
        (fun acc k => setColorAt acc ((base : Int) + (k : Nat)) (col k).1 (col k).2.1 (col k).2.2)
        buf = some out ∧ out.length = buf.length := by
  refine foldlM_range_inv _ (fun _ acc => acc.length = buf.length) n buf rfl ?_
  intro k hk acc hlen
  have hin : base + k < acc.length := by
    have := hfit k hk
    omega
  refine ⟨acc.set (base + k)
    { ch := acc[base + k].ch, r := (col k).1, g := (col k).2.1, b := (col k).2.2 }, ?_, ?_⟩
  · have : ((base : Int) + (k : Nat)) = ((base + k : Nat) : Int) := by push_cast; rfl
    rw [this]
    exact setColorAt_nat acc (base + k) hin _ _ _
  · simpa using hlen

theorem gradientWrite_eq (gs ge : Color3) (count : Int) (base : Nat) :
    gradientWrite gs ge count (base : Int)
      = fun acc k => setColorAt acc ((base : Int) + (k : Nat))
          (gradientChannel gs.c0 ge.c0 (gradientT count k),
           gradientChannel gs.c1 ge.c1 (gradientT count k),
           gradientChannel gs.c2 ge.c2 (gradientT count k)).1
          (gradientChannel gs.c0 ge.c0 (gradientT count k),
           gradientChannel gs.c1 ge.c1 (gradientT count k),
           gradientChannel gs.c2 ge.c2 (gradientT count k)).2.1
          (gradientChannel gs.c0 ge.c0 (gradientT count k),
           gradientChannel gs.c1 ge.c1 (gradientT count k),
           gradientChannel gs.c2 ge.c2 (gradientT count k)).2.2 := by
  funext acc k
  rfl

theorem autoApply_skip (buf : List ColoredChar) (sel : SelectionState) (ps pe : Int)
    (cc : Bool) (col : Color3) (h : has_selection sel buf = false) :
    autoApply buf sel ps pe cc col = some buf := by
  simp [autoApply, h]

theorem gradientSelection_skip (buf : List ColoredChar) (sel : SelectionState)
    (gs ge : Color3) (h : has_selection sel buf = false) :
    gradientSelection buf sel gs ge = some buf := by
  unfold has_selection at h
  simp only [gradientSelection, h]
  rfl

theorem autoApply_total (buf : List ColoredChar) (sel : SelectionState) (ps pe : Int)
    (cc : Bool) (col : Color3) (h0 : 0 ≤ sel.sel_start) :
    ∃ out, autoApply buf sel ps pe cc col = some out ∧ out.length = buf.length := by
  unfold autoApply
  simp only
  split
  · rename_i hcond
    have hsel : has_selection sel buf = true := by
      simp only [Bool.and_eq_true] at hcond
      exact hcond.1
    simp only [has_selection, Bool.and_eq_true, decide_eq_true_eq] at hsel
    obtain ⟨n, hn⟩ := Int.eq_ofNat_of_zero_le h0
    have hfit : ∀ k, k < (sel.sel_end - sel.sel_start).toNat → n + k < buf.length := by
      intro k hk
      omega
    have := writeLoop_total buf n (sel.sel_end - sel.sel_start).toNat hfit
      (fun _ => (ut_color col.c0, ut_color col.c1, ut_color col.c2))
    rw [hn] at this ⊢
    exact this
  · exact ⟨buf, rfl, rfl⟩

theorem gradientSelection_total (buf : List ColoredChar) (sel : SelectionState)
    (gs ge : Color3) (h0 : 0 ≤ sel.sel_start) :
    ∃ out, gradientSelection buf sel gs ge = some out ∧ out.length = buf.length := by
  unfold gradientSelection
  simp only
  split
  · rename_i hsel
    simp only [Bool.and_eq_true, decide_eq_true_eq] at hsel
    obtain ⟨n, hn⟩ := Int.eq_ofNat_of_zero_le h0
    have hfit : ∀ k, k < (sel.sel_end - sel.sel_start).toNat → n + k < buf.length := by
      intro k hk
      omega
    have := writeLoop_total buf n (sel.sel_end - sel.sel_start).toNat hfit
      (fun k =>
        (gradientChannel gs.c0 ge.c0 (gradientT (sel.sel_end - sel.sel_start) k),
         gradientChannel gs.c1 ge.c1 (gradientT (sel.sel_end - sel.sel_start) k),
         gradientChannel gs.c2 ge.c2 (gradientT (sel.sel_end - sel.sel_start) k)))
    rw [hn, gradientWrite_eq]
    rw [hn] at this
    exact this
  · exact ⟨buf, rfl, rfl⟩

theorem gradientAll_total (buf : List ColoredChar) (gs ge : Color3) :
    ∃ out, gradientAll buf gs ge = some out ∧ out.length = buf.length := by
  unfold gradientAll
  simp only
  split
  · have := writeLoop_total buf 0 buf.length (fun k hk => by omega)
      (fun k =>
        (gradientChannel gs.c0 ge.c0 (gradientT (buf.length : Int) k),
         gradientChannel gs.c1 ge.c1 (gradientT (buf.length : Int) k),
         gradientChannel gs.c2 ge.c2 (gradientT (buf.length : Int) k)))
    have h0 : (0 : Int) = ((0 : Nat) : Int) := rfl
    rw [Int.toNat_ofNat, h0, gradientWrite_eq]
    exact this
  · exact ⟨buf, rfl, rfl⟩

theorem autoApply_inverted (buf : List ColoredChar) (sel : SelectionState) (ps pe : Int)
    (cc : Bool) (col : Color3) (h : sel.sel_end ≤ sel.sel_start) :
    autoApply buf sel ps pe cc col = some buf := by
  have hz : (sel.sel_end - sel.sel_start).toNat = 0 := by omega
  unfold autoApply
  simp only [hz]
  split <;> rfl

theorem gradientSelection_inverted (buf : List ColoredChar) (sel : SelectionState)
    (gs ge : Color3) (h : sel.sel_end ≤ sel.sel_start) :
    gradientSelection buf sel gs ge = some buf := by
  have hz : (sel.sel_end - sel.sel_start).toNat = 0 := by omega
  unfold gradientSelection
  simp only [hz]
  split <;> rfl

/-- C7. Stale or empty selections are no-ops, and no write leaves the buffer.  For
every buffer and every range: when the range is empty (`start = end`) or its end
exceeds the length of the buffer, `has_selection` is false and both
selection-scoped operations return the buffer unchanged; they also return it
unchanged when `end ≤ start`; when `0 ≤ start`, both operations succeed, that is,
every checked write they perform is at an index in `[0, len)`, and they keep the
length of the buffer; a checked write succeeds exactly at the indices in
`[0, len)`. -/
theorem stale_selection_noop (buf : List ColoredChar) (sel : SelectionState)
    (prev_start prev_end : Int) (color_changed : Bool) (picker gstart gend : Color3) :
    ((sel.sel_start = sel.sel_end ∨ (buf.length : Int) < sel.sel_end) →
      has_selection sel buf = false ∧
      autoApply buf sel prev_start prev_end color_changed picker = some buf ∧
      gradientSelection buf sel gstart gend = some buf) ∧
    (sel.sel_end ≤ sel.sel_start →
      autoApply buf sel prev_start prev_end color_changed picker = some buf ∧
      gradientSelection buf sel gstart gend = some buf) ∧
    (0 ≤ sel.sel_start →
      (∃ out, autoApply buf sel prev_start prev_end color_changed picker = some out ∧
        out.length = buf.length) ∧
      (∃ out, gradientSelection buf sel gstart gend = some out ∧
        out.length = buf.length)) ∧
    (∀ (i : Int) (r g b : Nat),
      (setColorAt buf i r g b).isSome ↔ 0 ≤ i ∧ i < (buf.length : Int)) := by
  refine ⟨?_, ?_, ?_, setColorAt_isSome_iff buf⟩
  · intro h
    have hs : has_selection sel buf = false := by
      simp only [has_selection, Bool.and_eq_false_iff, decide_eq_false_iff_not, not_not, not_le]
      exact h
    exact ⟨hs, autoApply_skip buf sel _ _ _ _ hs, gradientSelection_skip buf sel _ _ hs⟩
  · intro h
    exact ⟨autoApply_inverted buf sel _ _ _ _ h, gradientSelection_inverted buf sel _ _ h⟩
  · intro h0
    exact ⟨autoApply_total buf sel _ _ _ _ h0, gradientSelection_total buf sel _ _ h0⟩

/-- Witness for C7: on the one-character buffer the stale range `[2,3)` is skipped,
the empty range `[1,1)` writes nothing, and with `0 ≤ 0` both operations succeed on
the range `[0,1)`. -/
theorem stale_selection_noop_witness :
    (has_selection { sel_start := 2, sel_end := 3, source := SEL_GRID } [⟨97, 255, 255, 255⟩]
        = false ∧
      autoApply [⟨97, 255, 255, 255⟩] { sel_start := 2, sel_end := 3, source := SEL_GRID }
        0 0 true ⟨1, 0, 0⟩ = some [⟨97, 255, 255, 255⟩] ∧
      gradientSelection [⟨97, 255, 255, 255⟩]
        { sel_start := 2, sel_end := 3, source := SEL_GRID } ⟨1, 0, 0⟩ ⟨0, 0, 1⟩
        = some [⟨97, 255, 255, 255⟩]) ∧
    (autoApply [⟨97, 255, 255, 255⟩] { sel_start := 1, sel_end := 1, source := SEL_NONE }
        0 0 true ⟨1, 0, 0⟩ = some [⟨97, 255, 255, 255⟩] ∧
      gradientSelection [⟨97, 255, 255, 255⟩]
        { sel_start := 1, sel_end := 1, source := SEL_NONE } ⟨1, 0, 0⟩ ⟨0, 0, 1⟩
        = some [⟨97, 255, 255, 255⟩]) ∧
    ((∃ out, autoApply [⟨97, 255, 255, 255⟩]
        { sel_start := 0, sel_end := 1, source := SEL_GRID } 0 0 true ⟨1, 0, 0⟩ = some out ∧
        out.length = [(⟨97, 255, 255, 255⟩ : ColoredChar)].length) ∧
      (∃ out, gradientSelection [⟨97, 255, 255, 255⟩]
        { sel_start := 0, sel_end := 1, source := SEL_GRID } ⟨1, 0, 0⟩ ⟨0, 0, 1⟩ = some out ∧
        out.length = [(⟨97, 255, 255, 255⟩ : ColoredChar)].length)) :=
  ⟨(stale_selection_noop [⟨97, 255, 255, 255⟩]
      { sel_start := 2, sel_end := 3, source := SEL_GRID } 0 0 true ⟨1, 0, 0⟩ ⟨1, 0, 0⟩
      ⟨0, 0, 1⟩).1 (Or.inr (by decide)),
   (stale_selection_noop [⟨97, 255, 255, 255⟩]
      { sel_start := 1, sel_end := 1, source := SEL_NONE } 0 0 true ⟨1, 0, 0⟩ ⟨1, 0, 0⟩
      ⟨0, 0, 1⟩).2.1 (by decide),
   (stale_selection_noop [⟨97, 255, 255, 255⟩]
      { sel_start := 0, sel_end := 1, source := SEL_GRID } 0 0 true ⟨1, 0, 0⟩ ⟨1, 0, 0⟩
      ⟨0, 0, 1⟩).2.2.1 (by decide)⟩

/-! ## Gradient -/

theorem gradientChannel_zero (a b : ℚ) : gradientChannel a b 0 = ut_color a := by
  simp [gradientChannel]

/-- C10. Gradient singleton: on a range `[i, i+1)` inside the buffer, and on a
buffer of one character with `Apply to All`, the gradient sets that one entry to
`ut_color` of the start colour, channel by channel, whatever the end colour is, and
leaves the character and all other entries as they were. -/
theorem gradient_singleton (buf : List ColoredChar) (i : Nat) (hi : i < buf.length)
    (src : SelectionSource) (gstart gend : Color3) (c : ColoredChar) :
    gradientSelection buf { sel_start := i, sel_end := (i : Int) + 1, source := src } gstart gend
      = some (buf.set i { ch := buf[i].ch, r := ut_color gstart.c0, g := ut_color gstart.c1,
                          b := ut_color gstart.c2 }) ∧
    gradientAll [c] gstart gend
      = some [{ ch := c.ch, r := ut_color gstart.c0, g := ut_color gstart.c1,
                b := ut_color gstart.c2 }] := by
  have hr : List.range 1 = [0] := rfl
  constructor
  · have hsel : (decide ((i : Int) ≠ (i : Int) + 1) &&
        decide ((i : Int) + 1 ≤ (buf.length : Int))) = true := by
      simp only [Bool.and_eq_true, decide_eq_true_eq]
      omega
    have hcount : ((i : Int) + 1 - (i : Int)).toNat = 1 := by omega
    have hcount' : ((i : Int) + 1 - (i : Int)) = 1 := by omega
    simp only [gradientSelection, hsel, if_true, hcount, hcount']
    have ht : Int.toNat 1 = 1 := rfl
    have h0 : ((i : Int) + ((0 : Nat) : Int)) = ((i : Nat) : Int) := by simp
    simp only [ht, hr, List.foldlM_cons, List.foldlM_nil, gradientWrite, gradientT,
      gradientChannel_zero, h0, gt_iff_lt, lt_self_iff_false, if_false]
    rw [setColorAt_nat buf i hi]
    rfl
  · have h := setColorAt_nat [c] 0 (by simp) (ut_color gstart.c0) (ut_color gstart.c1)
      (ut_color gstart.c2)
    have h0 : ((0 : Int) + ((0 : Nat) : Int)) = ((0 : Nat) : Int) := by simp
    have hone : ((([c] : List ColoredChar).length : Nat) : Int) = 1 := rfl
    unfold gradientAll
    simp only [hone, gt_iff_lt, zero_lt_one, if_true, Int.toNat_one, hr, List.foldlM_cons,
      List.foldlM_nil, gradientWrite, gradientT, lt_self_iff_false, if_false,
      gradientChannel_zero, h0]
    rw [h]
    rfl

/-- Witness for C10: the range `[1,2)` of the buffer `ab`, and the buffer `a`, with
the gradient from red to blue. -/
theorem gradient_singleton_witness :
    gradientSelection [⟨97, 255, 255, 255⟩, ⟨98, 255, 255, 255⟩]
        { sel_start := ((1 : Nat) : Int), sel_end := ((1 : Nat) : Int) + 1, source := SEL_GRID }
        ⟨1, 0, 0⟩ ⟨0, 0, 1⟩
      = some ([⟨97, 255, 255, 255⟩, ⟨98, 255, 255, 255⟩].set 1
          { ch := ([⟨97, 255, 255, 255⟩, ⟨98, 255, 255, 255⟩] : List ColoredChar)[1].ch,
            r := ut_color 1, g := ut_color 0, b := ut_color 0 }) ∧
    gradientAll [⟨97, 255, 255, 255⟩] ⟨1, 0, 0⟩ ⟨0, 0, 1⟩
      = some [{ ch := 97, r := ut_color 1, g := ut_color 0, b := ut_color 0 }] :=
  gradient_singleton [⟨97, 255, 255, 255⟩, ⟨98, 255, 255, 255⟩] 1 (by decide) SEL_GRID
    ⟨1, 0, 0⟩ ⟨0, 0, 1⟩ ⟨97, 255, 255, 255⟩

/-! ## Scenario -/

/-- C8. End-to-end scenario: synchronising the empty buffer with `abc` gives three
white entries; the gradient from red `(1,0,0)` to blue `(0,0,1)` applied to all gives
`a=(255,1,1)`, `b=(127,1,127)`, `c=(1,1,255)`; and the encoder writes the fifteen bytes
`1B FF 01 01 61 1B 7F 01 7F 62 1B 01 01 FF 63`. -/
theorem scenario_abc :
    sync [] [0x61, 0x62, 0x63]
      = some [⟨0x61, 255, 255, 255⟩, ⟨0x62, 255, 255, 255⟩, ⟨0x63, 255, 255, 255⟩] ∧
    gradientAll [⟨0x61, 255, 255, 255⟩, ⟨0x62, 255, 255, 255⟩, ⟨0x63, 255, 255, 255⟩]
        ⟨1, 0, 0⟩ ⟨0, 0, 1⟩
      = some [⟨0x61, 255, 1, 1⟩, ⟨0x62, 127, 1, 127⟩, ⟨0x63, 1, 1, 255⟩] ∧
    encode [⟨0x61, 255, 1, 1⟩, ⟨0x62, 127, 1, 127⟩, ⟨0x63, 1, 1, 255⟩]
      = some [0x1B, 0xFF, 0x01, 0x01, 0x61, 0x1B, 0x7F, 0x01, 0x7F, 0x62,
              0x1B, 0x01, 0x01, 0xFF, 0x63] ∧
    ((step initState (Event.textChanged [0x61, 0x62, 0x63])).bind
        (fun s => step s Event.gradientAllButton)).bind (fun s => encode s.colored_text)
      = some [0x1B, 0xFF, 0x01, 0x01, 0x61, 0x1B, 0x7F, 0x01, 0x7F, 0x62,
              0x1B, 0x01, 0x01, 0xFF, 0x63] := by
  refine ⟨by decide, by decide!, by decide, by decide!⟩

/-! ## Channels are never zero -/

/-- Invariant rule for a loop that is known to have succeeded. -/
theorem foldlM_some_inv {α β : Type} (f : α → β → Option α) (P : α → Prop)
    (hstep : ∀ a k a', P a → f a k = some a' → P a') :
    ∀ (l : List β) (init r : α), P init → l.foldlM f init = some r → P r := by
  intro l
  induction l with
  | nil =>
    intro init r h0 h
    simp at h
    exact h ▸ h0
  | cons x xs ih =>
    intro init r h0 h
    rw [List.foldlM_cons] at h
    cases hx : f init x with
    | none => simp [hx] at h
    | some a =>
      simp [hx] at h
      exact ih a r (hstep init x a h0 hx) h

theorem channelsOk_of_ut_color (c : ColoredChar) (x y z : ℚ) :
    ({ ch := c.ch, r := ut_color x, g := ut_color y, b := ut_color z } : ColoredChar).channelsOk :=
  ⟨⟨ut_color_pos x, ut_color_le x⟩, ⟨ut_color_pos y, ut_color_le y⟩,
    ⟨ut_color_pos z, ut_color_le z⟩⟩

theorem setColorAt_allOk (buf out : List ColoredChar) (i : Int) (x y z : ℚ)
    (h : setColorAt buf i (ut_color x) (ut_color y) (ut_color z) = some out)
    (hok : ∀ cc ∈ buf, cc.channelsOk) : ∀ cc ∈ out, cc.channelsOk := by
  unfold setColorAt at h
  split at h
  · cases h
  · split at h
    · cases h
    · rename_i c _
      cases h
      intro cc hcc
      rcases List.mem_or_eq_of_mem_set hcc with hmem | heq
      · exact hok cc hmem
      · rw [heq]
        exact channelsOk_of_ut_color c x y z

theorem applyColorAll_allOk (buf : List ColoredChar) (col : Color3) :
    ∀ cc ∈ applyColorAll buf col, cc.channelsOk := by
  unfold applyColorAll
  split
  · rename_i hempty
    have : buf = [] := by simpa using hempty
    simp [this]
  · intro cc hcc
    simp only [List.mem_map] at hcc
    obtain ⟨c, _, rfl⟩ := hcc
    exact channelsOk_of_ut_color c _ _ _

theorem gradientWrite_allOk (gs ge : Color3) (count base : Int) (buf out : List ColoredChar)
    (k : Nat) (hok : ∀ cc ∈ buf, cc.channelsOk) (h : gradientWrite gs ge count base buf k = some out) :
    ∀ cc ∈ out, cc.channelsOk :=
  setColorAt_allOk buf out _ _ _ _ h hok

theorem gradientSelection_allOk (buf out : List ColoredChar) (sel : SelectionState)
    (gs ge : Color3) (h : gradientSelection buf sel gs ge = some out)
    (hok : ∀ cc ∈ buf, cc.channelsOk) : ∀ cc ∈ out, cc.channelsOk := by
  unfold gradientSelection at h
  simp only at h
  split at h
  · exact foldlM_some_inv _ (fun b => ∀ cc ∈ b, cc.channelsOk)
      (fun a k a' ha hk => gradientWrite_allOk gs ge _ _ a a' k ha hk) _ buf out hok h
  · cases h
    exact hok

theorem gradientAll_allOk (buf out : List ColoredChar) (gs ge : Color3)
    (h : gradientAll buf gs ge = some out)
    (hok : ∀ cc ∈ buf, cc.channelsOk) : ∀ cc ∈ out, cc.channelsOk := by
  unfold gradientAll at h
  simp only at h
  split at h
  · exact foldlM_some_inv _ (fun b => ∀ cc ∈ b, cc.channelsOk)
      (fun a k a' ha hk => gradientWrite_allOk gs ge _ _ a a' k ha hk) _ buf out hok h
  · cases h
    exact hok

theorem autoApply_allOk (buf out : List ColoredChar) (sel : SelectionState) (ps pe : Int)
    (cf : Bool) (col : Color3) (h : autoApply buf sel ps pe cf col = some out)
    (hok : ∀ cc ∈ buf, cc.channelsOk) : ∀ cc ∈ out, cc.channelsOk := by
  unfold autoApply at h
  simp only at h
  split at h
  · exact foldlM_some_inv _ (fun b => ∀ cc ∈ b, cc.channelsOk)
      (fun a k a' ha hk => setColorAt_allOk a a' _ _ _ _ hk ha) _ buf out hok h
  · cases h
    exact hok

theorem specSyncEntry_ok (old : List ColoredChar) (i c : Nat)
    (hok : ∀ cc ∈ old, cc.channelsOk) : (specSyncEntry old i c).channelsOk := by
  unfold specSyncEntry
  cases ho : old[i]? with
  | none => simp [ColoredChar.channelsOk]
  | some o =>
    have hmem : o ∈ old := List.getElem?_mem ho
    have := hok o hmem
    by_cases hch : o.ch = c
    · simpa [hch, ColoredChar.channelsOk] using this
    · simp [hch, ColoredChar.channelsOk]

theorem sync_allOk (old out : List ColoredChar) (new_text : List Nat)
    (h : sync old new_text = some out) (hok : ∀ cc ∈ old, cc.channelsOk) :
    ∀ cc ∈ out, cc.channelsOk := by
  obtain ⟨out', h1, _, h3⟩ := sync_spec old new_text
  rw [h1] at h
  cases h
  intro cc hcc
  obtain ⟨i, hi⟩ := List.getElem?_of_mem hcc
  rw [h3 i] at hi
  cases hn : new_text[i]? with
  | none => simp [hn] at hi
  | some c =>
    simp [hn] at hi
    rw [← hi]
    exact specSyncEntry_ok old i c hok

theorem InputTextCallback_start_nonneg (st : SelectionState) (a b : Int)
    (h : 0 ≤ st.sel_start) (ha : 0 ≤ a) (hb : 0 ≤ b) :
    0 ≤ (InputTextCallback st a b).sel_start := by
  unfold InputTextCallback
  simp only
  split
  · exact le_min ha hb
  · split
    · exact le_refl 0
    · exact h

theorem gridClick_start_nonneg (st : SelectionState) (i : Nat) (k : Bool)
    (h : 0 ≤ st.sel_start) : 0 ≤ (gridClick st i k).sel_start := by
  unfold gridClick
  split
  · exact le_min h (Int.natCast_nonneg i)
  · exact Int.natCast_nonneg i

theorem reachable_inv (s : AppState) (h : ReachableBy ValidEvent s) :
    (∀ cc ∈ s.colored_text, cc.channelsOk) ∧ 0 ≤ s.sel_state.sel_start := by
  induction h with
  | init => exact ⟨by simp [initState], by simp [initState]⟩
  | @next s0 s1 e _ hv hs ih =>
    obtain ⟨hok, h0⟩ := ih
    cases e with
    | pickColor c =>
      simp only [step, Option.some.injEq] at hs
      subst hs
      exact ⟨hok, h0⟩
    | setGradient a b =>
      simp only [step, Option.some.injEq] at hs
      subst hs
      exact ⟨hok, h0⟩
    | applyColorAllButton =>
      simp only [step, Option.some.injEq] at hs
      subst hs
      exact ⟨applyColorAll_allOk _ _, h0⟩
    | gradientSelectionButton =>
      simp only [step, Option.map_eq_some'] at hs
      obtain ⟨buf, hb, rfl⟩ := hs
      exact ⟨gradientSelection_allOk _ _ _ _ _ hb hok, h0⟩
    | gradientAllButton =>
      simp only [step, Option.map_eq_some'] at hs
      obtain ⟨buf, hb, rfl⟩ := hs
      exact ⟨gradientAll_allOk _ _ _ _ hb hok, h0⟩
    | textSelection a b =>
      simp only [step, Option.some.injEq] at hs
      subst hs
      exact ⟨hok, InputTextCallback_start_nonneg _ _ _ h0 hv.1 hv.2⟩
    | textChanged t =>
      simp only [step, Option.map_eq_some'] at hs
      obtain ⟨buf, hb, rfl⟩ := hs
      exact ⟨sync_allOk _ _ _ hb hok, h0⟩
    | autoApplyTick cf =>
      simp only [step, Option.map_eq_some'] at hs
      obtain ⟨buf, hb, rfl⟩ := hs
      exact ⟨autoApply_allOk _ _ _ _ _ _ _ hb hok, h0⟩
    | gridButton i k =>
      simp only [step, Option.some.injEq] at hs
      subst hs
      exact ⟨hok, gridClick_start_nonneg _ _ _ h0⟩

theorem step_total (s : AppState) (h0 : 0 ≤ s.sel_state.sel_start) (e : Event) :
    ∃ s', step s e = some s' := by
  cases e with
  | pickColor c => exact ⟨_, rfl⟩
  | setGradient a b => exact ⟨_, rfl⟩
  | applyColorAllButton => exact ⟨_, rfl⟩
  | gradientSelectionButton =>
    obtain ⟨out, ho, _⟩ := gradientSelection_total s.colored_text s.sel_state
      s.gradient_start s.gradient_end h0
    exact ⟨_, by simp only [step, ho, Option.map_some']; rfl⟩
  | gradientAllButton =>
    obtain ⟨out, ho, _⟩ := gradientAll_total s.colored_text s.gradient_start s.gradient_end
    exact ⟨_, by simp only [step, ho, Option.map_some']; rfl⟩
  | textSelection a b => exact ⟨_, rfl⟩
  | textChanged t =>
    obtain ⟨out, ho, _⟩ := sync_spec s.colored_text t
    exact ⟨_, by simp only [step, ho, Option.map_some']; rfl⟩
  | autoApplyTick cf =>
    obtain ⟨out, ho, _⟩ := autoApply_total s.colored_text s.sel_state s.prev_sel_start
      s.prev_sel_end cf s.current_color h0
    exact ⟨_, by simp only [step, ho, Option.map_some']; rfl⟩
  | gridButton i k => exact ⟨_, rfl⟩

theorem marker_mem_emitFrom (l : List ColoredChar) :
    ∀ (prev : Option ColoredChar) (r g b : Nat), Emit.marker r g b ∈ emitFrom prev l →
      ∃ c ∈ l, c.r = r ∧ c.g = g ∧ c.b = b := by
  induction l with
  | nil =>
    intro prev r g b h
    simp [emitFrom] at h
  | cons c rest ih =>
    intro prev r g b h
    rw [emitFrom, List.mem_append] at h
    rcases h with h | h
    · refine ⟨c, List.mem_cons_self _ _, ?_⟩
      split at h
      · simp at h
        exact ⟨h.1.symm, h.2.1.symm, h.2.2.symm⟩
      · simp at h
    · obtain ⟨c', hc', hrgb⟩ := ih (some c) r g b h
      exact ⟨c', List.mem_cons_of_mem _ hc', hrgb⟩

/-- C3. No colour channel is ever zero: in every state reached from the initial
state (empty buffer) by the events of the user interface (text edits, selection
reports, grid clicks, picker and gradient colours with channels in `[0,1]`, the
uniform colour applied to all or to the selection, the gradient applied to all or to
the selection) every `r`, `g`, `b` of every entry lies in `1..255`; the encoder
succeeds there and every marker it emits has `R`, `G`, `B` in `1..255`; and every
further such event runs without leaving the buffer. -/
theorem channels_never_zero (s : AppState) (h : ReachableBy ValidEvent s) :
    (∀ cc ∈ s.colored_text,
      (1 ≤ cc.r ∧ cc.r ≤ 255) ∧ (1 ≤ cc.g ∧ cc.g ≤ 255) ∧ (1 ≤ cc.b ∧ cc.b ≤ 255)) ∧
    (∃ items, encodeItems s.colored_text = some items ∧
      ∀ r g b, Emit.marker r g b ∈ items →
        (1 ≤ r ∧ r ≤ 255) ∧ (1 ≤ g ∧ g ≤ 255) ∧ (1 ≤ b ∧ b ≤ 255)) ∧
    (∀ e, ValidEvent s e → ∃ s', step s e = some s') := by
  obtain ⟨hok, h0⟩ := reachable_inv s h
  refine ⟨hok, ⟨emitFrom none s.colored_text, encodeItems_eq _, ?_⟩, fun e _ => step_total s h0 e⟩
  intro r g b hm
  obtain ⟨c, hc, hr, hg, hb⟩ := marker_mem_emitFrom _ _ _ _ _ hm
  have := hok c hc
  rw [← hr, ← hg, ← hb]
  exact this

theorem scenarioState_reachable : ReachableBy ValidEvent scenarioState :=
  @ReachableBy.next ValidEvent abcState scenarioState Event.gradientAllButton
    (@ReachableBy.next ValidEvent initState abcState (Event.textChanged [0x61, 0x62, 0x63])
      ReachableBy.init trivial rfl)
    trivial (by decide!)

/-- Witness for C3 at the state of the scenario (`abc` with the gradient from red to
blue). -/
theorem channels_never_zero_witness :
    ReachableBy ValidEvent scenarioState ∧
    ∀ cc ∈ scenarioState.colored_text,
      (1 ≤ cc.r ∧ cc.r ≤ 255) ∧ (1 ≤ cc.g ∧ cc.g ≤ 255) ∧ (1 ≤ cc.b ∧ cc.b ≤ 255) :=
  ⟨scenarioState_reachable, (channels_never_zero scenarioState scenarioState_reachable).1⟩

/-! ## Selection range -/

theorem ReachableBy.mono {V W : AppState → Event → Prop} (hVW : ∀ s e, V s e → W s e)
    (s : AppState) (h : ReachableBy V s) : ReachableBy W s := by
  induction h with
  | init => exact ReachableBy.init
  | next e _ hv hs ih => exact ReachableBy.next e ih (hVW _ _ hv) hs

theorem InputTextCallback_range (st : SelectionState) (a b : Int) (ha : 0 ≤ a) (hb : 0 ≤ b)
    (h : 0 ≤ st.sel_start ∧ st.sel_start ≤ st.sel_end) :
    0 ≤ (InputTextCallback st a b).sel_start ∧
      (InputTextCallback st a b).sel_start ≤ (InputTextCallback st a b).sel_end := by
  unfold InputTextCallback
  simp only
  split
  · exact ⟨le_min ha hb, min_le_max⟩
  · split
    · exact ⟨le_refl 0, le_refl 0⟩
    · exact h

theorem gridClick_range (st : SelectionState) (i : Nat) (k : Bool) (h : 0 ≤ st.sel_start) :
    0 ≤ (gridClick st i k).sel_start ∧
      (gridClick st i k).sel_start < (gridClick st i k).sel_end ∧
      (gridClick st i k).source = SEL_GRID := by
  unfold gridClick
  split
  · refine ⟨le_min h (Int.natCast_nonneg i), ?_, rfl⟩
    exact lt_of_le_of_lt min_le_max (Int.lt_add_one_iff.mpr (le_refl _))
  · exact ⟨Int.natCast_nonneg i, Int.lt_add_one_iff.mpr (le_refl _), rfl⟩

theorem sel_range_inv (s : AppState) (h : ReachableBy SelEvent s) :
    0 ≤ s.sel_state.sel_start ∧ s.sel_state.sel_start ≤ s.sel_state.sel_end := by
  induction h with
  | init => exact ⟨by simp [initState], by simp [initState]⟩
  | next e _ hv hs ih =>
    cases e with
    | pickColor c => exact hv.elim
    | setGradient a b => exact hv.elim
    | applyColorAllButton => exact hv.elim
    | gradientSelectionButton => exact hv.elim
    | gradientAllButton => exact hv.elim
    | autoApplyTick cf => exact hv.elim
    | textSelection a b =>
      simp only [step, Option.some.injEq] at hs
      subst hs
      exact InputTextCallback_range _ _ _ hv.1.1 hv.2.1 ih
    | textChanged t =>
      simp only [step, Option.map_eq_some'] at hs
      obtain ⟨buf, _, rfl⟩ := hs
      exact ih
    | gridButton i k =>
      simp only [step, Option.some.injEq] at hs
      subst hs
      have := gridClick_range _ i k ih.1
      exact ⟨this.1, le_of_lt this.2.1⟩

theorem sel_range_inv_growing (s : AppState) (h : ReachableBy GrowingSelEvent s) :
    0 ≤ s.sel_state.sel_start ∧ s.sel_state.sel_start ≤ s.sel_state.sel_end ∧
      s.sel_state.sel_end ≤ (s.colored_text.length : Int) ∧
      (s.sel_state.source = SEL_GRID → s.sel_state.sel_start < s.sel_state.sel_end) := by
  induction h with
  | init => simp [initState]
  | @next s0 s1 e _ hv hs ih =>
    obtain ⟨h0, h1, h2, h3⟩ := ih
    cases e with
    | pickColor c => exact hv.1.elim
    | setGradient a b => exact hv.1.elim
    | applyColorAllButton => exact hv.1.elim
    | gradientSelectionButton => exact hv.1.elim
    | gradientAllButton => exact hv.1.elim
    | autoApplyTick cf => exact hv.1.elim
    | textSelection a b =>
      simp only [step, Option.some.injEq] at hs
      subst hs
      obtain ⟨⟨ha0, ha1⟩, hb0, hb1⟩ := hv.1
      simp only [InputTextCallback]
      split
      · rename_i hne
        refine ⟨le_min ha0 hb0, min_le_max, max_le ha1 hb1, fun _ => ?_⟩
        exact lt_of_le_of_ne min_le_max hne
      · split
        · simp
        · exact ⟨h0, h1, h2, h3⟩
    | textChanged t =>
      simp only [step, Option.map_eq_some'] at hs
      obtain ⟨buf, hb, rfl⟩ := hs
      obtain ⟨out, ho, hlen, _⟩ := sync_spec s0.colored_text t
      have hbl : buf.length = t.length := by
        rw [ho] at hb
        cases hb
        exact hlen
      have hgrow : s0.colored_text.length ≤ t.length := hv.2
      refine ⟨h0, h1, ?_, h3⟩
      show s0.sel_state.sel_end ≤ (buf.length : Int)
      omega
    | gridButton i k =>
      simp only [step, Option.some.injEq] at hs
      subst hs
      have hi : i < s0.colored_text.length := hv.1
      have hr := gridClick_range s0.sel_state i k h0
      refine ⟨hr.1, le_of_lt hr.2.1, ?_, fun _ => hr.2.1⟩
      show (gridClick s0.sel_state i k).sel_end ≤ (s0.colored_text.length : Int)
      unfold gridClick
      split
      · rename_i hc
        have hlt := h3 hc.2
        show max s0.sel_state.sel_start (i : Int) + 1 ≤ (s0.colored_text.length : Int)
        have : max s0.sel_state.sel_start (i : Int) < (s0.colored_text.length : Int) :=
          max_lt (by omega) (by omega)
        omega
      · show (i : Int) + 1 ≤ (s0.colored_text.length : Int)
        omega

theorem abcState_reachable : ReachableBy GrowingSelEvent abcState :=
  @ReachableBy.next GrowingSelEvent initState abcState (Event.textChanged [0x61, 0x62, 0x63])
    ReachableBy.init ⟨trivial, Nat.zero_le 3⟩ rfl

theorem gridState_reachable : ReachableBy GrowingSelEvent gridState :=
  @ReachableBy.next GrowingSelEvent abcState gridState (Event.gridButton 2 false)
    abcState_reachable ⟨(by decide : 2 < 3), trivial⟩ rfl

theorem staleState_reachable : ReachableBy SelEvent staleState :=
  @ReachableBy.next SelEvent gridState staleState (Event.textChanged [0x61])
    (ReachableBy.mono (fun _ _ h => h.1) gridState gridState_reachable) trivial rfl

/-- C5 (as amended). Selection range invariant: in every state reached from the
initial state by text edits, text-widget reports inside the current text and grid
clicks on an existing index, the range satisfies `0 ≤ start ≤ end`; when none of the
text edits shortens the text, it also satisfies `end ≤ len`. -/
theorem selection_range_invariant (s : AppState) :
    (ReachableBy SelEvent s →
      0 ≤ s.sel_state.sel_start ∧ s.sel_state.sel_start ≤ s.sel_state.sel_end) ∧
    (ReachableBy GrowingSelEvent s →
      0 ≤ s.sel_state.sel_start ∧ s.sel_state.sel_start ≤ s.sel_state.sel_end ∧
        s.sel_state.sel_end ≤ (s.colored_text.length : Int)) := by
  refine ⟨sel_range_inv s, fun h => ?_⟩
  obtain ⟨h0, h1, h2, _⟩ := sel_range_inv_growing s h
  exact ⟨h0, h1, h2⟩

/-- Witness for C5 (as amended): the stale state for the first part, the state
`abc` with a grid selection for the second. -/
theorem selection_range_invariant_witness :
    (0 ≤ staleState.sel_state.sel_start ∧
      staleState.sel_state.sel_start ≤ staleState.sel_state.sel_end) ∧
    (0 ≤ gridState.sel_state.sel_start ∧
      gridState.sel_state.sel_start ≤ gridState.sel_state.sel_end ∧
      gridState.sel_state.sel_end ≤ (gridState.colored_text.length : Int)) :=
  ⟨(selection_range_invariant staleState).1 staleState_reachable,
   (selection_range_invariant gridState).2 gridState_reachable⟩

/-- C5 as stated fails: the edit to `abc`, a click on grid index `2` and the edit to
`a` reach a state whose range `[2,3)` ends beyond the buffer of length `1`. -/
theorem stale_range_after_shrink :
    ReachableBy SelEvent staleState ∧
    staleState.sel_state.sel_start = 2 ∧ staleState.sel_state.sel_end = 3 ∧
    staleState.colored_text.length = 1 ∧
    ¬ (staleState.sel_state.sel_end ≤ (staleState.colored_text.length : Int)) :=
  ⟨staleState_reachable, rfl, rfl, rfl, by decide⟩

end UTColor
